import Mathlib

/-!
# Verification of the aeonia ledger core

Shallow embedding of the aeonia repository (a minimal single-authority
cryptocurrency ledger written in Rust) together with proofs about its
operations.  The embedding follows the Rust sources:

* `src/blockchain/transaction.rs` — the `Transaction` record and its
  canonical textual form;
* `src/blockchain/block.rs` — the `Block` record, its canonical textual
  form (`ToString`), its serde-json form, its SHA-256 hash and the
  timestamp-dependent `Default` block;
* `src/blockchain/mod.rs` — the `Blockchain` operations: `last_block`,
  `add_block`, `add_transation_to_pool`, `valid_proof`, `proof_of_work`,
  `mining` and `calculate_transactions_total`;
* `src/wallet/mod.rs` — `Wallet::derive_address`.

Modelling conventions:

* Monetary amounts (`f64` in the source) are modelled as rationals `Rat`;
  the claims under study concern which transactions contribute with which
  sign, not floating-point rounding.
* All strings produced by the program are ASCII, so UTF-8 encoding is
  modelled as `Char.toNat` per character.
* Mutex acquisition results are explicit boolean inputs (`cP` for the
  chain lock, `pP` for the pool lock): `true` models a poisoned lock,
  i.e. `Mutex::lock` returning `Err`.
* ECDSA signing/verification is cryptographic and is modelled by an
  explicit boolean input carrying the verification outcome.
* The unbounded `proof_of_work` loop is modelled with explicit fuel.
-/

set_option maxRecDepth 8000
set_option maxHeartbeats 2000000

namespace Aeonia

/-! ## Bytes, hex and UTF-8 (ASCII) helpers -/

/-- A byte string: each entry is a byte value `< 256`. -/
abbrev Bytes := List Nat

/-- `2 ^ 32`, the modulus of 32-bit machine arithmetic. -/
def w32 : Nat := 4294967296

/-- 32-bit addition. -/
def wadd (a b : Nat) : Nat := (a + b) % w32

/-- 32-bit bitwise complement. -/
def wnot (a : Nat) : Nat := 4294967295 - a

/-- Right rotation of a 32-bit word by `n` places. -/
def rotr (n a : Nat) : Nat := ((a >>> n) ||| (a <<< (32 - n))) % w32

/-- Left rotation of a 32-bit word by `n` places. -/
def rotl (n a : Nat) : Nat := ((a <<< n) % w32) ||| (a >>> (32 - n))

/-- The ASCII bytes of a string.  Every string handled by the program is
ASCII, so this agrees with Rust's `str::as_bytes` on all inputs in use. -/
def strBytes (s : String) : Bytes := s.data.map Char.toNat

/-- Lowercase hex digit for a value `< 16`. -/
def hexDigit (n : Nat) : Char :=
  if n < 10 then Char.ofNat (48 + n) else Char.ofNat (87 + n)

/-- Lowercase hex rendering of a byte string. -/
def bytesToHex (l : Bytes) : String :=
  String.mk (l.foldr (fun b acc => hexDigit (b / 16) :: hexDigit (b % 16) :: acc) [])

/-- `k` bytes of `n`, big-endian. -/
def beBytes (k n : Nat) : Bytes :=
  (List.range k).map (fun i => (n >>> (8 * (k - 1 - i))) % 256)

/-- `k` bytes of `n`, little-endian. -/
def leBytes (k n : Nat) : Bytes :=
  (List.range k).map (fun i => (n >>> (8 * i)) % 256)

/-! ## SHA-256 (the `sha256` crate: digest rendered as lowercase hex) -/

/-- The SHA-256 round constants. -/
def sha256K : List Nat :=
  [1116352408, 1899447441, 3049323471, 3921009573, 961987163,
   1508970993, 2453635748, 2870763221, 3624381080, 310598401,
   607225278, 1426881987, 1925078388, 2162078206, 2614888103,
   3248222580, 3835390401, 4022224774, 264347078, 604807628,
   770255983, 1249150122, 1555081692, 1996064986, 2554220882,
   2821834349, 2952996808, 3210313671, 3336571891, 3584528711,
   113926993, 338241895, 666307205, 773529912, 1294757372,
   1396182291, 1695183700, 1986661051, 2177026350, 2456956037,
   2730485921, 2820302411, 3259730800, 3345764771, 3516065817,
   3600352804, 4094571909, 275423344, 430227734, 506948616,
   659060556, 883997877, 958139571, 1322822218, 1537002063,
   1747873779, 1955562222, 2024104815, 2227730452, 2361852424,
   2428436474, 2756734187, 3204031479, 3329325298]

/-- The SHA-256 initial hash state. -/
def sha256H0 : List Nat :=
  [1779033703, 3144134277, 1013904242, 2773480762,
   1359893119, 2600822924, 528734635, 1541459225]

/-- Merkle–Damgård padding: append `0x80`, zero bytes up to 56 mod 64,
then the bit length as 8 big-endian bytes. -/
def sha256Pad (msg : Bytes) : Bytes :=
  let len := msg.length
  let z := (64 - ((len + 9) % 64)) % 64
  msg ++ [0x80] ++ List.replicate z 0 ++ beBytes 8 (len * 8)

/-- Big-endian 32-bit words of a byte string (length a multiple of 4). -/
def bytesToWordsBE : Bytes → List Nat
  | b0 :: b1 :: b2 :: b3 :: rest =>
      (((b0 * 256 + b1) * 256 + b2) * 256 + b3) :: bytesToWordsBE rest
  | _ => []

/-- Split a word list into 16-word blocks. -/
def wordBlocks : List Nat → List (List Nat)
  | w0 :: w1 :: w2 :: w3 :: w4 :: w5 :: w6 :: w7 ::
    w8 :: w9 :: w10 :: w11 :: w12 :: w13 :: w14 :: w15 :: rest =>
      [w0, w1, w2, w3, w4, w5, w6, w7, w8, w9, w10, w11, w12, w13, w14, w15]
        :: wordBlocks rest
  | _ => []

/-- SHA-256 small sigma 0. -/
def ssig0 (x : Nat) : Nat := (rotr 7 x) ^^^ (rotr 18 x) ^^^ (x >>> 3)

/-- SHA-256 small sigma 1. -/
def ssig1 (x : Nat) : Nat := (rotr 17 x) ^^^ (rotr 19 x) ^^^ (x >>> 10)

/-- SHA-256 big sigma 0. -/
def bsig0 (x : Nat) : Nat := (rotr 2 x) ^^^ (rotr 13 x) ^^^ (rotr 22 x)

/-- SHA-256 big sigma 1. -/
def bsig1 (x : Nat) : Nat := (rotr 6 x) ^^^ (rotr 11 x) ^^^ (rotr 25 x)

/-- SHA-256 choice function. -/
def chf (x y z : Nat) : Nat := (x &&& y) ^^^ ((wnot x) &&& z)

/-- SHA-256 majority function. -/
def majf (x y z : Nat) : Nat := (x &&& y) ^^^ (x &&& z) ^^^ (y &&& z)

/-- Extend a 16-word block by `n` schedule words. -/
def sha256Extend : Nat → Array Nat → Array Nat
  | 0, wrds => wrds
  | n + 1, wrds =>
      let t := wrds.size
      let w := wadd (wadd (ssig1 (wrds.getD (t - 2) 0)) (wrds.getD (t - 7) 0))
                    (wadd (ssig0 (wrds.getD (t - 15) 0)) (wrds.getD (t - 16) 0))
      sha256Extend n (wrds.push w)

/-- One SHA-256 round on the 8-word working state. -/
def sha256Round (st : List Nat) (kw : Nat × Nat) : List Nat :=
  match st with
  | [a, b, c, d, e, f, g, h] =>
      let t1 := wadd h (wadd (bsig1 e) (wadd (chf e f g) (wadd kw.1 kw.2)))
      let t2 := wadd (bsig0 a) (majf a b c)
      [wadd t1 t2, a, b, c, wadd d t1, e, f, g]
  | other => other

/-- Compress one 16-word block into the hash state. -/
def sha256Compress (st : List Nat) (block : List Nat) : List Nat :=
  let wrds := (sha256Extend 48 (Array.mk block)).toList
  let out := (sha256K.zip wrds).foldl sha256Round st
  List.zipWith wadd st out

/-- SHA-256 digest of a byte string, as 32 bytes. -/
def sha256Bytes (msg : Bytes) : Bytes :=
  let final := (wordBlocks (bytesToWordsBE (sha256Pad msg))).foldl sha256Compress sha256H0
  final.foldr (fun w acc => beBytes 4 w ++ acc) []

/-- `sha256::digest` on a byte input: the digest rendered as lowercase hex. -/
def sha256digestBytes (msg : Bytes) : String := bytesToHex (sha256Bytes msg)

/-- `sha256::digest` on a string input: hashes its UTF-8 bytes. -/
def sha256digest (s : String) : String := sha256digestBytes (strBytes s)

/-! ## RIPEMD-160 (the `ripemd` crate) -/

/-- RIPEMD-160 message word order, left line. -/
def ripemdR1 : List Nat :=
  [0, 1, 2, 3, 4, 5, 6, 7, 8, 9, 10, 11, 12, 13, 14, 15,
   7, 4, 13, 1, 10, 6, 15, 3, 12, 0, 9, 5, 2, 14, 11, 8,
   3, 10, 14, 4, 9, 15, 8, 1, 2, 7, 0, 6, 13, 11, 5, 12,
   1, 9, 11, 10, 0, 8, 12, 4, 13, 3, 7, 15, 14, 5, 6, 2,
   4, 0, 5, 9, 7, 12, 2, 10, 14, 1, 3, 8, 11, 6, 15, 13]

/-- RIPEMD-160 message word order, right line. -/
def ripemdR2 : List Nat :=
  [5, 14, 7, 0, 9, 2, 11, 4, 13, 6, 15, 8, 1, 10, 3, 12,
   6, 11, 3, 7, 0, 13, 5, 10, 14, 15, 8, 12, 4, 9, 1, 2,
   15, 5, 1, 3, 7, 14, 6, 9, 11, 8, 12, 2, 10, 0, 4, 13,
   8, 6, 4, 1, 3, 11, 15, 0, 5, 12, 2, 13, 9, 7, 10, 14,
   12, 15, 10, 4, 1, 5, 8, 7, 6, 2, 13, 14, 0, 3, 9, 11]

/-- RIPEMD-160 rotation amounts, left line. -/
def ripemdS1 : List Nat :=
  [11, 14, 15, 12, 5, 8, 7, 9, 11, 13, 14, 15, 6, 7, 9, 8,
   7, 6, 8, 13, 11, 9, 7, 15, 7, 12, 15, 9, 11, 7, 13, 12,
   11, 13, 6, 7, 14, 9, 13, 15, 14, 8, 13, 6, 5, 12, 7, 5,
   11, 12, 14, 15, 14, 15, 9, 8, 9, 14, 5, 6, 8, 6, 5, 12,
   9, 15, 5, 11, 6, 8, 13, 12, 5, 12, 13, 14, 11, 8, 5, 6]

/-- RIPEMD-160 rotation amounts, right line. -/
def ripemdS2 : List Nat :=
  [8, 9, 9, 11, 13, 15, 15, 5, 7, 7, 8, 11, 14, 14, 12, 6,
   9, 13, 15, 7, 12, 8, 9, 11, 7, 7, 12, 7, 6, 15, 13, 11,
   9, 7, 15, 11, 8, 6, 6, 14, 12, 13, 5, 14, 13, 13, 7, 5,
   15, 5, 8, 11, 14, 14, 6, 14, 6, 9, 12, 9, 12, 5, 15, 8,
   8, 5, 12, 9, 12, 5, 14, 6, 8, 13, 6, 5, 15, 13, 11, 11]

/-- RIPEMD-160 round constant, left line, for round `j`. -/
def ripemdK1 (j : Nat) : Nat :=
  [0, 1518500249, 1859775393, 2400959708, 2840853838].getD (j / 16) 0

/-- RIPEMD-160 round constant, right line, for round `j`. -/
def ripemdK2 (j : Nat) : Nat :=
  [1352829926, 1548603684, 1836072691, 2053994217, 0].getD (j / 16) 0

/-- RIPEMD-160 selection function for round `j`. -/
def ripemdF (j x y z : Nat) : Nat :=
  if j < 16 then x ^^^ y ^^^ z
  else if j < 32 then (x &&& y) ||| ((wnot x) &&& z)
  else if j < 48 then (x ||| (wnot y)) ^^^ z
  else if j < 64 then (x &&& z) ||| (y &&& (wnot z))
  else x ^^^ (y ||| (wnot z))

/-- One RIPEMD-160 round of one line on the 5-word state.  `fj` selects the
round function index and `kf` the round constant for round `j`. -/
def ripemdRound (x : List Nat) (fj : Nat → Nat) (kf : Nat → Nat) (r s : List Nat)
    (st : List Nat) (j : Nat) : List Nat :=
  match st with
  | [a, b, c, d, e] =>
      let t := wadd (rotl (s.getD j 0)
        ((a + ripemdF (fj j) b c d + x.getD (r.getD j 0) 0 + kf j) % w32)) e
      [e, t, b, rotl 10 c, d]
  | other => other

/-- Compress one 16-word little-endian block into the RIPEMD-160 state. -/
def ripemdCompress (h : List Nat) (x : List Nat) : List Nat :=
  let left := (List.range 80).foldl (ripemdRound x id ripemdK1 ripemdR1 ripemdS1) h
  let right := (List.range 80).foldl (ripemdRound x (fun j => 79 - j) ripemdK2 ripemdR2 ripemdS2) h
  match h, left, right with
  | [h0, h1, h2, h3, h4], [a, b, c, d, e], [a2, b2, c2, d2, e2] =>
      [wadd h1 (wadd c d2), wadd h2 (wadd d e2), wadd h3 (wadd e a2),
       wadd h4 (wadd a b2), wadd h0 (wadd b c2)]
  | _, _, _ => h

/-- RIPEMD padding: like SHA-256 but with a little-endian length field. -/
def ripemdPad (msg : Bytes) : Bytes :=
  let len := msg.length
  let z := (64 - ((len + 9) % 64)) % 64
  msg ++ [0x80] ++ List.replicate z 0 ++ leBytes 8 (len * 8)

/-- Little-endian 32-bit words of a byte string (length a multiple of 4). -/
def bytesToWordsLE : Bytes → List Nat
  | b0 :: b1 :: b2 :: b3 :: rest =>
      (((b3 * 256 + b2) * 256 + b1) * 256 + b0) :: bytesToWordsLE rest
  | _ => []

/-- The RIPEMD-160 initial state. -/
def ripemdH0 : List Nat := [1732584193, 4023233417, 2562383102, 271733878, 3285377520]

/-- RIPEMD-160 digest of a byte string, as 20 bytes
(`ripemd::Ripemd160::digest`). -/
def ripemd160 (msg : Bytes) : Bytes :=
  let final := (wordBlocks (bytesToWordsLE (ripemdPad msg))).foldl ripemdCompress ripemdH0
  final.foldr (fun w acc => leBytes 4 w ++ acc) []

/-! ## Base-58 (the `base58` crate: `ToBase58` for `[u8]`) -/

/-- The Bitcoin base-58 alphabet. -/
def base58Alphabet : String := "123456789ABCDEFGHJKLMNPQRSTUVWXYZabcdefghijkmnopqrstuvwxyz"

/-- The base-58 digit character for a value `< 58`. -/
def b58Char (d : Nat) : Char := base58Alphabet.data.getD d '1'

/-- A byte string as a big-endian natural number. -/
def bytesToNat (l : Bytes) : Nat := l.foldl (fun acc b => acc * 256 + b) 0

/-- Base-58 digits of a natural number (empty for 0).  The crate loops
while the number is positive; `fuel` bounds the model structurally and is
always passed large enough (one division per digit, and a number built
from `L` bytes has fewer than `2 L + 8` base-58 digits). -/
def natToB58 (fuel n : Nat) : List Char :=
  match fuel with
  | 0 => []
  | f + 1 => if n = 0 then [] else natToB58 f (n / 58) ++ [b58Char (n % 58)]

/-- `[u8]::to_base58`: big-endian base-58 with each leading zero byte
rendered as the digit `1`. -/
def toBase58 (l : Bytes) : String :=
  let zeros := (l.takeWhile (fun b => b = 0)).length
  String.mk (List.replicate zeros '1' ++ natToB58 (2 * l.length + 8) (bytesToNat l))

/-! ## `Wallet::derive_address` (src/wallet/mod.rs) -/

/-- `Wallet::derive_address`, translated line by line from
`src/wallet/mod.rs`.  `publicKeyRepr` stands for `public_key.to_string()`,
the canonical textual representation of the public key; the derivation
only ever consumes that string.  Note the source's
`public_key_sha256.split_off(4)`: `String::split_off(at)` leaves bytes
`[0, at)` in place and RETURNS bytes `[at, len)`, so the appended tail is
the last 60 hex characters of the double-SHA-256 rendering, modelled by
`String.drop 4`. -/
def derive_address (publicKeyRepr : String) (version : Nat) : String :=
  let publicKeySha256 := sha256digest publicKeyRepr
  let publicKeyRipemd := ripemd160 (strBytes publicKeySha256)
  let versionedPublicKeyRipemd := version :: publicKeyRipemd
  let doubleHashed := sha256digest (sha256digestBytes versionedPublicKeyRipemd)
  toBase58 (versionedPublicKeyRipemd ++ strBytes (doubleHashed.drop 4))

/-- The address derivation as the specification words it (for comparison
with `derive_address`): version byte, then RIPEMD-160 of the raw SHA-256
digest of the public-key bytes, then a 4-byte checksum equal to the first
4 bytes of SHA-256(SHA-256(versioned payload)), base-58 encoded. -/
def derive_address_spec (publicKeyRepr : String) (version : Nat) : String :=
  let pkHash := sha256Bytes (strBytes publicKeyRepr)
  let ripemdDigest := ripemd160 pkHash
  let versionedPayload := version :: ripemdDigest
  let checksum := (sha256Bytes (sha256Bytes versionedPayload)).take 4
  toBase58 (versionedPayload ++ checksum)

/-! ## Transaction and Block (src/blockchain/transaction.rs, block.rs) -/

/-- `Transaction` (src/blockchain/transaction.rs): sender, recipient and
amount.  The Rust `amount: f64` is modelled as a rational. -/
structure Transaction where
  sender : String
  recipient : String
  amount : Rat
deriving DecidableEq, Repr, Inhabited

/-- The smallest number of decimal digits that renders `den` exactly
(`den` dividing `10 ^ k`), searched up to 40. -/
def decimalExponent (den : Nat) : Option Nat :=
  (List.range 40).find? (fun k => 10 ^ k % den = 0)

/-- Rust's `Display` for an `f64` holding an exactly representable decimal:
an integral value prints with no fractional part (`1.0` prints as `1`),
otherwise the shortest exact decimal expansion.  (Rationals with no finite
decimal expansion do not arise from `f64` values; they fall back to the
integer rendering of the numerator over the denominator.) -/
def amountToString (q : Rat) : String :=
  if q.den = 1 then toString q.num
  else
    match decimalExponent q.den with
    | some k =>
        let n := (q.num.natAbs * 10 ^ k) / q.den
        let sign := if q.num < 0 then "-" else ""
        let frac := toString (n % 10 ^ k)
        sign ++ toString (n / 10 ^ k) ++ "." ++
          String.mk (List.replicate (k - frac.length) '0') ++ frac
    | none => toString q.num ++ "/" ++ toString q.den

/-- `serde_json`'s rendering of an `f64` (ryu): integral values keep one
fractional digit (`1.0`), others print their exact decimal expansion. -/
def jsonAmount (q : Rat) : String :=
  if q.den = 1 then toString q.num ++ ".0" else amountToString q

/-- `Transaction::to_string` (the `format!` raw string of
src/blockchain/transaction.rs, byte for byte). -/
def transactionToString (t : Transaction) : String :=
  "\n        \x7b\n            \"sender\": \"" ++ t.sender ++
  "\",\n            \"recipient\": \"" ++ t.recipient ++
  "\",\n            \"amount\": " ++ amountToString t.amount ++
  "\n        \x7d\n        "

/-- `serde_json` string escaping.  The addresses and hashes the program
produces are alphanumeric, so only the basic escapes are modelled. -/
def jsonEscapeChar (c : Char) : List Char :=
  if c = '"' then ['\\', '"']
  else if c = '\\' then ['\\', '\\']
  else if c = '\n' then ['\\', 'n']
  else if c = '\r' then ['\\', 'r']
  else if c = '\t' then ['\\', 't']
  else [c]

/-- `serde_json` escaping of a whole string. -/
def jsonEscape (s : String) : String :=
  String.mk (s.data.foldr (fun c acc => jsonEscapeChar c ++ acc) [])

/-- `serde_json::to_string` of a `Transaction` (derived `Serialize`,
fields in declaration order). -/
def serdeJsonTransaction (t : Transaction) : String :=
  "\x7b\"sender\":\"" ++ jsonEscape t.sender ++ "\",\"recipient\":\"" ++
  jsonEscape t.recipient ++ "\",\"amount\":" ++ jsonAmount t.amount ++ "\x7d"

/-- `Block` (src/blockchain/block.rs), fields in declaration order. -/
structure Block where
  nonce : Int
  previous_hash : String
  timestamp : Int
  transactions : List Transaction
  miner : String
deriving DecidableEq, Repr, Inhabited

/-- `Block::new` — note the argument order of the Rust constructor
(`transactions` before `timestamp`). -/
def Block.new (nonce : Int) (previous_hash : String) (transactions : List Transaction)
    (timestamp : Int) (miner : String) : Block :=
  ⟨nonce, previous_hash, timestamp, transactions, miner⟩

/-- `Block::to_string` (the `format!` raw string of src/blockchain/block.rs,
byte for byte; transactions joined by a comma; note the trailing comma
after the miner field). -/
def blockToString (b : Block) : String :=
  "\n        \x7b\n            \"nonce\": " ++ toString b.nonce ++
  ",\n            \"previous_hash\": \"" ++ b.previous_hash ++
  "\",\n            \"timestamp\": " ++ toString b.timestamp ++
  ",\n            \"transactions\": [" ++
  String.intercalate "," (b.transactions.map transactionToString) ++
  "],\n            \"miner\": \"" ++ b.miner ++ "\",\n        \x7d\n        "

/-- `Block::hash`: SHA-256 (lowercase hex) of the canonical textual form. -/
def blockHash (b : Block) : String := sha256digest (blockToString b)

/-- `serde_json::to_string` of a `Block` (derived `Serialize`, fields in
declaration order). -/
def serdeJsonBlock (b : Block) : String :=
  "\x7b\"nonce\":" ++ toString b.nonce ++ ",\"previous_hash\":\"" ++
  jsonEscape b.previous_hash ++ "\",\"timestamp\":" ++ toString b.timestamp ++
  ",\"transactions\":[" ++
  String.intercalate "," (b.transactions.map serdeJsonTransaction) ++
  "],\"miner\":\"" ++ jsonEscape b.miner ++ "\"\x7d"

/-- `Block::default`: a block with nonce 0, empty previous hash, empty
transactions, miner `"none"` and the CURRENT wall-clock timestamp `ts`,
whose `previous_hash` is then set to the SHA-256 of the serde-json form of
that block (timestamp included). -/
def defaultBlock (ts : Int) : Block :=
  let b := Block.new 0 "" [] ts "none"
  { b with previous_hash := sha256digest (serdeJsonBlock b) }

/-! ## The Ledger Engine (src/blockchain/mod.rs) -/

/-- The error enum of src/blockchain/mod.rs. -/
inductive Error where
  | MutexPoison (msg : String)
  | Json (msg : String)
  | Ecdsa (msg : String)
  | InvalidSignature (msg : String)
  | AvailableBalanceExceeded (sender : String)
deriving DecidableEq, Repr

/-- The message a poisoned `Mutex` reports (its exact text never matters
to the program). -/
def poisonMsg : String := "poisoned lock: another task failed inside"

/-- `MINING_DIFFICULTY` (src/blockchain/mod.rs). -/
def miningDifficulty : Nat := 3

/-- `MINING_REWARD` (src/blockchain/mod.rs). -/
def miningReward : Rat := 1

/-- The mutable state of a `Blockchain`: the sealed chain and the pending
transaction pool (each behind its own mutex in the source).  The
authority's wallet address is passed to the operations explicitly. -/
structure Blockchain where
  chain : List Block
  transaction_pool : List Transaction
deriving DecidableEq, Repr

/-- `Blockchain::last_block`: under a poisoned chain lock (`cP`) the
`Err` arm returns `None`; otherwise the element at index `len - 1`
(saturating), `None` for an empty chain. -/
def last_block (cP : Bool) (chain : List Block) : Option Block :=
  if cP then none else chain.get? (chain.length - 1)

/-- The pool-draining loop of `Blockchain::add_block`: repeatedly `pop`
the last pooled transaction and `push` it onto the block's list, until the
pool is empty.  The loop runs exactly once per pooled transaction; `fuel`
makes that structural. -/
def drainLoop (fuel : Nat) (pool transactions : List Transaction) :
    List Transaction × List Transaction :=
  match fuel with
  | 0 => (pool, transactions)
  | f + 1 =>
      if h : pool = [] then (pool, transactions)
      else drainLoop f pool.dropLast (transactions ++ [pool.getLast h])

/-- The drain of `Blockchain::add_block`: (pool left behind, drained list). -/
def drainPool (pool transactions : List Transaction) :
    List Transaction × List Transaction :=
  drainLoop pool.length pool transactions

/-- `Blockchain::add_block`.  `cP`/`pP` are the chain/pool lock outcomes,
`timestamp` the wall clock read after the drain, `defaultTs` the wall
clock a `Block::default` would read (used only when the chain is empty or
its lock poisoned).  Returns the operation's `Result` and the state after
the call: when the chain lock is poisoned the pool has already been
drained but no block is appended. -/
def add_block (cP pP : Bool) (nonce : Int) (miner : String)
    (timestamp defaultTs : Int) (st : Blockchain) :
    Except Error Block × Blockchain :=
  let previous_block := (last_block cP st.chain).getD (defaultBlock defaultTs)
  let previous_hash := blockHash previous_block
  if pP then (.error (.MutexPoison poisonMsg), st)
  else
    let drained := drainPool st.transaction_pool []
    let b := Block.new nonce previous_hash drained.2 timestamp miner
    if cP then (.error (.MutexPoison poisonMsg), { st with transaction_pool := drained.1 })
    else (.ok b, { chain := st.chain ++ [b], transaction_pool := drained.1 })

/-- The per-transaction step of `Blockchain::calculate_transactions_total`:
`+amount` when `address` is the recipient, `-amount` when it is the
sender (both, when it is both). -/
def txContribution (address : String) (total : Rat) (t : Transaction) : Rat :=
  let total1 := if t.recipient = address then total + t.amount else total
  if t.sender = address then total1 - t.amount else total1

/-- `Blockchain::calculate_transactions_total`: fold the contribution over
every transaction of every sealed block, then over the pool.  The chain
lock is taken first, the pool lock after the chain walk. -/
def calculate_transactions_total (cP pP : Bool) (st : Blockchain)
    (address : String) : Except Error Rat :=
  if cP then .error (.MutexPoison poisonMsg)
  else
    let chainTotal := st.chain.foldl
      (fun acc b => b.transactions.foldl (txContribution address) acc) 0
    if pP then .error (.MutexPoison poisonMsg)
    else .ok (st.transaction_pool.foldl (txContribution address) chainTotal)

/-- `Blockchain::add_transation_to_pool` (source spelling).  `sigValid`
models the outcome of `verifying_key.verify` on the transaction's
canonical form.  A non-authority sender must have pooled+sealed balance
at least the amount; on success the transaction is pushed onto the pool. -/
def add_transation_to_pool (cP pP : Bool) (authority : String)
    (sigValid : Bool) (t : Transaction) (st : Blockchain) :
    Except Error Transaction × Blockchain :=
  if !sigValid then (.error (.InvalidSignature "signature error"), st)
  else
    let balanceCheck : Except Error Unit :=
      if t.sender ≠ authority then
        match calculate_transactions_total cP pP st t.sender with
        | .error e => .error e
        | .ok senderBalance =>
            if senderBalance < t.amount then
              .error (.AvailableBalanceExceeded t.sender)
            else .ok ()
      else .ok ()
    match balanceCheck with
    | .error e => (.error e, st)
    | .ok _ =>
        if pP then (.error (.MutexPoison poisonMsg), st)
        else (.ok t, { st with transaction_pool := st.transaction_pool ++ [t] })

/-- `Blockchain::deposit_to_wallet`: the authority signs a transaction
from its own address and admits it.  `signOk` models
`Wallet::sign_transaction` succeeding (its signature then verifies, so
`sigValid` is passed on as given). -/
def deposit_to_wallet (cP pP : Bool) (authority : String) (signOk sigValid : Bool)
    (recipient : String) (amount : Rat) (st : Blockchain) :
    Except Error Transaction × Blockchain :=
  if !signOk then (.error (.Ecdsa "ecdsa error"), st)
  else add_transation_to_pool cP pP authority sigValid
    ⟨authority, recipient, amount⟩ st

/-- `Blockchain::valid_proof`: build the guess block with placeholder
timestamp 0 and miner `"none"`, serialize it WITH serde-json (not the
canonical `to_string` form), hash it, and test for `MINING_DIFFICULTY`
leading `'0'` characters.  (`serde_json::to_string` of this struct cannot
fail, so only its `Ok` arm is modelled.) -/
def valid_proof (nonce : Int) (previous_hash : String)
    (transactions : List Transaction) : Bool :=
  let zeros := String.join (List.replicate miningDifficulty "0")
  let guess_block := Block.new nonce previous_hash transactions 0 "none"
  let guess_hash := sha256digest (serdeJsonBlock guess_block)
  guess_hash.startsWith zeros

/-- The nonce search loop of `Blockchain::proof_of_work`: from `nonce`
upward, the first nonce passing `valid_proof`.  The Rust loop is unbounded;
`fuel` bounds the model, `none` meaning the bound was exhausted. -/
def powLoop (fuel : Nat) (nonce : Int) (previous_hash : String)
    (transactions : List Transaction) : Option Int :=
  match fuel with
  | 0 => none
  | f + 1 =>
      if valid_proof nonce previous_hash transactions then some nonce
      else powLoop f (nonce + 1) previous_hash transactions

/-- `Blockchain::proof_of_work`: lock the pool, take the last block's
hash, and search from nonce 0.  The source `unwrap`s the last block —
the chain is never empty after construction; an absent last block (empty
or poisoned chain, where the source would panic) is modelled as finding
no nonce. -/
def proof_of_work (cP pP : Bool) (fuel : Nat) (st : Blockchain) :
    Except Error (Option Int) :=
  if pP then .error (.MutexPoison poisonMsg)
  else
    match last_block cP st.chain with
    | none => .ok none
    | some lastB => .ok (powLoop fuel 0 (blockHash lastB) st.transaction_pool)

/-- `Blockchain::mining`: sign a reward transaction of `MINING_REWARD`
from the authority to the miner, admit it, run the proof-of-work search
and append the block; every failure on the way folds into `false`.
`signOk` models `Wallet::sign_transaction` succeeding and `sigValid` the
reward signature verifying; fuel exhaustion of the search (where the
source would loop forever) also yields `false`. -/
def mining (cP pP : Bool) (fuel : Nat) (authority miner : String)
    (signOk sigValid : Bool) (ts dts : Int) (st : Blockchain) :
    Bool × Blockchain :=
  if !signOk then (false, st)
  else
    match add_transation_to_pool cP pP authority sigValid
      ⟨authority, miner, miningReward⟩ st with
    | (.error _, st1) => (false, st1)
    | (.ok _, st1) =>
        match proof_of_work cP pP fuel st1 with
        | .error _ => (false, st1)
        | .ok none => (false, st1)
        | .ok (some nonce) =>
            match add_block cP pP nonce miner ts dts st1 with
            | (.ok _, st2) => (true, st2)
            | (.error _, st2) => (false, st2)

/-- `Blockchain::new`: fresh wallet (address `authority`), empty chain and
pool, then `add_block(0, &address)` — the genesis block.  Fresh locks are
never poisoned, so construction cannot fail; `genesisTs` is the wall clock
at the genesis append and `defaultTs` the wall clock `Block::default`
reads. -/
def blockchain_new (authority : String) (genesisTs defaultTs : Int) : Blockchain :=
  (add_block false false 0 authority genesisTs defaultTs ⟨[], []⟩).2

/-- The ledger states reachable from construction by any sequence of
admissions (`add_transation_to_pool`, with any lock/signature outcomes)
and sealings (`add_block`, with any nonce, miner, timestamps and lock
outcomes).  `mining` and `deposit_to_wallet` only ever touch the state
through these two. -/
inductive Reachable (authority : String) : Blockchain → Prop where
  | construct (genesisTs defaultTs : Int) :
      Reachable authority (blockchain_new authority genesisTs defaultTs)
  | admission (cP pP sigValid : Bool) (t : Transaction) (st : Blockchain) :
      Reachable authority st →
      Reachable authority (add_transation_to_pool cP pP authority sigValid t st).2
  | sealing (cP pP : Bool) (nonce : Int) (miner : String) (ts dts : Int) (st : Blockchain) :
      Reachable authority st →
      Reachable authority (add_block cP pP nonce miner ts dts st).2

/-! ## Specification-side definitions -/

/-- The balance of `address` over a transaction list, as the specification
words it: `+amount` for every transaction with `address` as recipient and
`-amount` for every transaction with `address` as sender. -/
def balanceOfSpec (txs : List Transaction) (address : String) : Rat :=
  (txs.map (fun t =>
    (if t.recipient = address then t.amount else 0) -
    (if t.sender = address then t.amount else 0))).sum

/-- All transactions a ledger state accounts for: every transaction of
every sealed block, then the pending pool. -/
def allTransactions (st : Blockchain) : List Transaction :=
  (st.chain.map Block.transactions).flatten ++ st.transaction_pool

/-- Chain linkage: every non-genesis block's `previous_hash` is the hash
of the block before it. -/
def ChainLinked (l : List Block) : Prop :=
  ∀ i (hi : i < l.length), 0 < i →
    (l.get ⟨i, hi⟩).previous_hash =
      blockHash (l.get ⟨i - 1, Nat.lt_of_le_of_lt (Nat.sub_le i 1) hi⟩)

/-! ## Helper lemmas -/

lemma drainLoop_concat (x : Transaction) :
    ∀ (pool acc : List Transaction),
      drainLoop (pool ++ [x]).length (pool ++ [x]) acc =
        drainLoop pool.length pool (acc ++ [x]) := by
  intro pool acc
  have hne : pool ++ [x] ≠ [] := by simp
  rw [show (pool ++ [x]).length = pool.length + 1 by simp]
  rw [drainLoop]
  simp [hne, List.dropLast_concat, List.getLast_concat]

/-- The drain loop pops the pool back to front: it empties the pool and
appends the pool's reverse to the accumulator. -/
lemma drainPool_eq (pool acc : List Transaction) :
    drainPool pool acc = ([], acc ++ pool.reverse) := by
  unfold drainPool
  induction pool using List.reverseRecOn generalizing acc with
  | nil => simp [drainLoop]
  | append_singleton xs x ih =>
      rw [drainLoop_concat, ih]
      simp

/-- Closed form of a successful `add_block` (no lock poisoned): the new
block carries the reversed pool and the hash of the previous block, is
appended to the chain, and the pool is left empty. -/
lemma add_block_eq (nonce : Int) (miner : String) (ts dts : Int) (st : Blockchain) :
    add_block false false nonce miner ts dts st =
      (.ok (Block.new nonce
              (blockHash ((last_block false st.chain).getD (defaultBlock dts)))
              st.transaction_pool.reverse ts miner),
       ⟨st.chain ++ [Block.new nonce
              (blockHash ((last_block false st.chain).getD (defaultBlock dts)))
              st.transaction_pool.reverse ts miner], []⟩) := by
  unfold add_block
  simp [drainPool_eq]

/-- Admission never touches the chain, whatever the outcome. -/
lemma admit_chain (cP pP : Bool) (authority : String) (sigValid : Bool)
    (t : Transaction) (st : Blockchain) :
    (add_transation_to_pool cP pP authority sigValid t st).2.chain = st.chain := by
  rcases hc : calculate_transactions_total cP pP st t.sender with e | bal <;>
    by_cases hs : t.sender ≠ authority <;>
      cases sigValid <;> cases pP <;>
        simp [add_transation_to_pool, hc, hs] <;>
          split_ifs <;> simp

/-- Unfolding of one transaction's contribution. -/
lemma txContribution_eq (address : String) (a : Rat) (t : Transaction) :
    txContribution address a t =
      a + ((if t.recipient = address then t.amount else 0) -
           (if t.sender = address then t.amount else 0)) := by
  unfold txContribution
  split <;> split <;> ring

lemma balanceOfSpec_append (l1 l2 : List Transaction) (address : String) :
    balanceOfSpec (l1 ++ l2) address =
      balanceOfSpec l1 address + balanceOfSpec l2 address := by
  simp [balanceOfSpec]

lemma foldl_txContribution (address : String) :
    ∀ (txs : List Transaction) (a : Rat),
      txs.foldl (txContribution address) a = a + balanceOfSpec txs address := by
  intro txs
  induction txs with
  | nil => intro a; simp [balanceOfSpec]
  | cons t ts ih =>
      intro a
      rw [List.foldl_cons, ih, txContribution_eq]
      simp [balanceOfSpec]
      ring

lemma chain_foldl_txContribution (address : String) :
    ∀ (chain : List Block) (a : Rat),
      chain.foldl (fun acc b => b.transactions.foldl (txContribution address) acc) a =
        a + balanceOfSpec (chain.map Block.transactions).flatten address := by
  intro chain
  induction chain with
  | nil => intro a; simp [balanceOfSpec]
  | cons b bs ih =>
      intro a
      rw [List.foldl_cons, foldl_txContribution, ih, List.map_cons, List.flatten_cons,
        balanceOfSpec_append]
      ring

/-- Closed form of `calculate_transactions_total` under healthy locks. -/
lemma calc_total_closed (st : Blockchain) (address : String) :
    calculate_transactions_total false false st address =
      .ok (balanceOfSpec (allTransactions st) address) := by
  show Except.ok (st.transaction_pool.foldl (txContribution address)
      (st.chain.foldl (fun acc b => b.transactions.foldl (txContribution address) acc) 0)) =
    Except.ok (balanceOfSpec (allTransactions st) address)
  rw [chain_foldl_txContribution, foldl_txContribution, zero_add]
  unfold allTransactions
  rw [balanceOfSpec_append]

lemma last_block_eq_getLast (l : List Block) (h : l ≠ []) :
    last_block false l = some (l.getLast h) := by
  unfold last_block
  rw [if_neg (by simp), List.getLast_eq_getElem, List.get?_eq_getElem?]
  exact List.getElem?_eq_getElem (by have := List.length_pos.mpr h; omega)

lemma add_block_pool_poisoned (cP : Bool) (nonce : Int) (miner : String)
    (ts dts : Int) (st : Blockchain) :
    add_block cP true nonce miner ts dts st = (.error (.MutexPoison poisonMsg), st) := rfl

lemma add_block_chain_poisoned (nonce : Int) (miner : String) (ts dts : Int)
    (st : Blockchain) :
    (add_block true false nonce miner ts dts st).2.chain = st.chain := rfl

lemma blockchain_new_eq (authority : String) (gTs dTs : Int) :
    blockchain_new authority gTs dTs =
      ⟨[Block.new 0 (blockHash (defaultBlock dTs)) [] gTs authority], []⟩ := by
  unfold blockchain_new
  rw [add_block_eq]
  simp [last_block]

lemma chainLinked_singleton (b : Block) : ChainLinked [b] := by
  intro i hi hpos
  simp at hi
  omega

lemma chainLinked_append (l : List Block) (b : Block) (hl : ChainLinked l)
    (hb : ∀ (h : l ≠ []), b.previous_hash = blockHash (l.getLast h)) :
    ChainLinked (l ++ [b]) := by
  intro i hi hpos
  simp only [List.get_eq_getElem]
  have hlen : i < l.length + 1 := by simpa using hi
  by_cases hil : i < l.length
  · have h1 : i - 1 < l.length := by omega
    rw [List.getElem_append_left hil, List.getElem_append_left h1]
    exact hl i hil hpos
  · have hie : i = l.length := by omega
    subst hie
    have hne : l ≠ [] := by
      intro hnil
      rw [hnil] at hpos
      simp at hpos
    have h1 : l.length - 1 < l.length := by have := List.length_pos.mpr hne; omega
    rw [List.getElem_concat_length l b _ rfl, List.getElem_append_left h1,
      hb hne, List.getLast_eq_getElem]

lemma powLoop_finds_first (previous_hash : String) (txs : List Transaction) :
    ∀ (fuel : Nat) (start n : Int), powLoop fuel start previous_hash txs = some n →
      valid_proof n previous_hash txs = true ∧
      ∀ m : Int, start ≤ m → m < n → valid_proof m previous_hash txs = false := by
  intro fuel
  induction fuel with
  | zero =>
      intro start n h
      exact absurd h (by simp [powLoop])
  | succ f ih =>
      intro start n h
      rw [powLoop] at h
      by_cases hv : valid_proof start previous_hash txs = true
      · rw [if_pos hv] at h
        obtain rfl : start = n := by exact Option.some.inj h
        exact ⟨hv, fun m hm1 hm2 => absurd (lt_of_le_of_lt hm1 hm2) (lt_irrefl _)⟩
      · rw [if_neg hv] at h
        obtain ⟨h1, h2⟩ := ih (start + 1) n h
        refine ⟨h1, fun m hm1 hm2 => ?_⟩
        by_cases hm : m = start
        · subst hm
          exact Bool.eq_false_iff.mpr hv
        · exact h2 m (by omega) hm2

/-! ## The claims -/

/-- C1: admitting a transaction whose sender is not the authority's own
address and whose amount exceeds the sender's balance (over sealed chain
plus pool) fails with `AvailableBalanceExceeded`, and the state — in
particular the transaction pool — is exactly the same afterward. -/
theorem admission_rejects_excessive_amount (authority : String) (t : Transaction)
    (st : Blockchain) (hSender : t.sender ≠ authority)
    (hBal : balanceOfSpec (allTransactions st) t.sender < t.amount) :
    add_transation_to_pool false false authority true t st =
      (.error (.AvailableBalanceExceeded t.sender), st) := by
  simp [add_transation_to_pool, calc_total_closed, hSender, hBal]

/-- Witness for C1: the concrete sender `"S"` (not the authority `"A"`)
with balance 0 on a fresh state cannot send 5. -/
theorem admission_rejects_excessive_amount_witness :
    add_transation_to_pool false false "A" true ⟨"S", "B", 5⟩ ⟨[], []⟩ =
      (.error (.AvailableBalanceExceeded "S"), ⟨[], []⟩) :=
  admission_rejects_excessive_amount "A" ⟨"S", "B", 5⟩ ⟨[], []⟩
    (by decide) (by decide)

/-- C2: `calculate_transactions_total` returns exactly the signed sum —
`+amount` to the recipient, `-amount` from the sender — over every
transaction of every sealed block and every pooled transaction. -/
theorem balance_is_signed_sum (st : Blockchain) (address : String) :
    calculate_transactions_total false false st address =
      .ok (balanceOfSpec (allTransactions st) address) :=
  calc_total_closed st address

/-- C3: sealing (`add_block`) drains the whole pool into the new block in
reverse admission order (the last-admitted transaction is first in the
sealed block) and leaves the pool empty. -/
theorem sealing_drains_pool_reversed (nonce : Int) (miner : String) (ts dts : Int)
    (st : Blockchain) :
    add_block false false nonce miner ts dts st =
      (.ok (Block.new nonce
              (blockHash ((last_block false st.chain).getD (defaultBlock dts)))
              st.transaction_pool.reverse ts miner),
       ⟨st.chain ++ [Block.new nonce
              (blockHash ((last_block false st.chain).getD (defaultBlock dts)))
              st.transaction_pool.reverse ts miner], []⟩) :=
  add_block_eq nonce miner ts dts st

/-- C4: whenever the proof-of-work search returns a nonce, the guess hash
of that nonce has at least `MINING_DIFFICULTY` = 3 leading `'0'` hex
characters, and no smaller nonce in `[0, nonce)` passes the test. -/
theorem proof_of_work_first_valid (fuel : Nat) (previous_hash : String)
    (transactions : List Transaction) :
    match powLoop fuel 0 previous_hash transactions with
    | some n =>
        (sha256digest (serdeJsonBlock (Block.new n previous_hash transactions 0 "none"))).startsWith
            (String.join (List.replicate miningDifficulty "0")) = true ∧
        ∀ m : Int, 0 ≤ m → m < n →
          (sha256digest (serdeJsonBlock (Block.new m previous_hash transactions 0 "none"))).startsWith
              (String.join (List.replicate miningDifficulty "0")) = false
    | none => True := by
  cases hp : powLoop fuel 0 previous_hash transactions with
  | none => trivial
  | some n => exact powLoop_finds_first previous_hash transactions fuel 0 n hp

/-- C5 counterexample: at the concrete guess block
`Block{nonce 0, previous_hash "", timestamp 0, [], miner "none"}` the hash
`valid_proof` computes (SHA-256 of the serde-json form) differs from
`Block::hash` (SHA-256 of the canonical textual form). -/
theorem guess_hash_differs_from_block_hash :
    sha256digest (serdeJsonBlock (Block.new 0 "" [] 0 "none")) ≠
      blockHash (Block.new 0 "" [] 0 "none") := by decide

/-- C5 amended: the guess hash computed at each step of the search is
SHA-256 (lowercase hex) of the SERDE-JSON serialization of
`Block{nonce, previous_hash, transactions, timestamp = 0, miner = "none"}`
— not `Block::hash` of that block. -/
theorem valid_proof_uses_serde_json_hash (nonce : Int) (previous_hash : String)
    (transactions : List Transaction) :
    valid_proof nonce previous_hash transactions =
      (sha256digest (serdeJsonBlock
        (Block.new nonce previous_hash transactions 0 "none"))).startsWith
          (String.join (List.replicate miningDifficulty "0")) := rfl

/-- C6: in every reachable ledger state, every non-genesis block's
`previous_hash` is the hash of the block before it in the chain. -/
theorem chain_linkage (authority : String) (st : Blockchain)
    (h : Reachable authority st) : ChainLinked st.chain := by
  induction h with
  | construct gTs dTs =>
      rw [blockchain_new_eq]
      exact chainLinked_singleton _
  | admission cP pP sigValid t st' hr ih =>
      unfold ChainLinked
      rw [admit_chain cP pP authority sigValid t st']
      exact ih
  | sealing cP pP nonce miner ts dts st' hr ih =>
      cases pP with
      | true =>
          rw [add_block_pool_poisoned]
          exact ih
      | false =>
          cases cP with
          | true =>
              unfold ChainLinked
              rw [add_block_chain_poisoned]
              exact ih
          | false =>
              rw [add_block_eq]
              apply chainLinked_append _ _ ih
              intro hne
              rw [last_block_eq_getLast st'.chain hne]
              rfl

/-- Witness for C6: a concrete two-block chain — construction followed by
one sealing — is linked at index 1. -/
theorem chain_linkage_witness :
    ((add_block false false 1 "M" 7 0 (blockchain_new "A" 0 0)).2.chain.get
        ⟨1, by decide⟩).previous_hash =
      blockHash ((add_block false false 1 "M" 7 0 (blockchain_new "A" 0 0)).2.chain.get
        ⟨0, by decide⟩) :=
  chain_linkage "A" _
    (Reachable.sealing false false 1 "M" 7 0 _ (Reachable.construct 0 0))
    1 (by decide) (by decide)

/-- C7 counterexample: two constructions whose `Block::default` reads
different wall-clock timestamps produce different genesis
`previous_hash`es — the chain root is NOT deterministic. -/
theorem genesis_root_depends_on_timestamp :
    ((blockchain_new "A" 0 0).chain.headI).previous_hash ≠
      ((blockchain_new "A" 0 1).chain.headI).previous_hash := by decide

/-- C7 amended: construction appends a genesis block with nonce 0 and an
empty transaction list whose `previous_hash` is `Block::hash` of the
default block — a block carrying the construction-time wall-clock
timestamp, so the root depends on that timestamp. -/
theorem blockchain_new_genesis (authority : String) (genesisTs defaultTs : Int) :
    blockchain_new authority genesisTs defaultTs =
      ⟨[Block.new 0 (blockHash (defaultBlock defaultTs)) [] genesisTs authority], []⟩ :=
  blockchain_new_eq authority genesisTs defaultTs

/-- C8: at the concrete public-key representation `"pk"` with version byte
0, the code's address (which appends the LAST 60 hex characters of the
double-SHA-256 rendering, `String::split_off(4)` returning the tail)
differs from the specification's base58check address (first 4 bytes of
the double digest as checksum). -/
theorem derive_address_diverges_from_spec :
    derive_address "pk" 0 =
      "13TZ5Kz2SvK1FWvDsWEh28UvVdMq3Xbjd2N24d3fRH1FqjzY8Di39gTAfGwxxunZ86XuPrkjfCH8UwTVTvhB6YBGG82WmGhA5Dxinu24zw1bMod" ∧
    derive_address_spec "pk" 0 = "1AnkZDeCz3ZnHu4QphJPzChH5674rGTwk1" ∧
    derive_address "pk" 0 ≠ derive_address_spec "pk" 0 :=
  ⟨by decide, by decide, by decide⟩

/-- C9 counterexample: `last_block` under a poisoned chain lock returns
`None` — the same non-error value an empty chain produces — instead of a
lock-poisoned error. -/
theorem last_block_swallows_poisoned_lock :
    last_block true [defaultBlock 0] = none ∧ last_block false [] = none :=
  ⟨rfl, rfl⟩

/-- C9 amended: `calculate_transactions_total`, `add_block`,
`add_transation_to_pool` and `proof_of_work` surface `MutexPoison` when a
required lock is poisoned, but `last_block` folds the failure into `None`
and `mining` folds it into `false`. -/
theorem poisoned_lock_error_reporting (cP : Bool) (st : Blockchain)
    (address authority miner recipient : String) (nonce ts dts : Int) (fuel : Nat) :
    calculate_transactions_total true false st address = .error (.MutexPoison poisonMsg) ∧
    calculate_transactions_total false true st address = .error (.MutexPoison poisonMsg) ∧
    (add_block cP true nonce miner ts dts st).1 = .error (.MutexPoison poisonMsg) ∧
    (add_transation_to_pool false true authority true ⟨authority, recipient, 0⟩ st).1 =
      .error (.MutexPoison poisonMsg) ∧
    proof_of_work cP true fuel st = .error (.MutexPoison poisonMsg) ∧
    last_block true st.chain = none ∧
    (mining cP true fuel authority miner true true ts dts st).1 = false := by
  refine ⟨rfl, rfl, rfl, ?_, rfl, rfl, ?_⟩
  · simp [add_transation_to_pool]
  · simp [mining, add_transation_to_pool]

/-- C10: admission — whatever its outcome (success, bad signature,
insufficient balance, poisoned lock) — never changes the sealed chain. -/
theorem admission_preserves_chain (cP pP : Bool) (authority : String)
    (sigValid : Bool) (t : Transaction) (st : Blockchain) :
    (add_transation_to_pool cP pP authority sigValid t st).2.chain = st.chain :=
  admit_chain cP pP authority sigValid t st

end Aeonia
